import Mathlib

/-!
Shallow embedding of the message-offset durable delivery / recovery subsystem
of tg_notion_bot (`src/services/telegram_service/message_queue.py`) and the
media-group batching collector (`src/services/telegram_service/media_group.py`).

Modelling conventions:
* The SQLite database behind `MessageOffsetManager` is a `Store` value holding
  the two tables (`message_offset`, `processed_messages`) as lists of rows in
  insertion order.  SQL timestamps (`CURRENT_TIMESTAMP` defaults) are modelled
  by a logical clock that the store increments on every insert, so row times
  are strictly increasing in insertion order, matching a monotone wall clock.
* A Telegram `Update` is modelled by `Upd`: its `update_id` plus which of the
  optional payload attributes (`message`, `callback_query`, `inline_query`)
  is populated, and the `message_id`/`chat_id` of the carried message.
* Handler dispatch (`_process_single_update`) is modelled by a `Handlers`
  record: which keys are present in the handler dict, and an `ok` predicate
  telling whether the dispatched handler returns normally (`ok u = false`
  models the handler raising an exception, which the source catches and turns
  into a `False` return).  The ids of updates on which a handler was actually
  invoked are collected as a trace, modelling handler side effects.
* `bot.get_updates(offset, limit)` is modelled by `get_pending_updates` over a
  fixed transport buffer: up to `limit` buffered updates with id `≥ offset`
  (no lower bound when `offset` is `None`).
* The unbounded `while True` drain loop of `process_backlog_messages` is given
  explicit fuel; `none` means the loop had not finished within `fuel`
  iterations (so `∀ fuel, result = none` is genuine divergence).
-/

/-- Which optional payload attribute of a Telegram `Update` is populated. -/
inductive UpdKind where
  | message
  | callbackQuery
  | inlineQuery
  | other
deriving DecidableEq

/-- A Telegram update envelope as consumed by the queue subsystem. -/
structure Upd where
  update_id : Int
  kind : UpdKind
  message_id : Option Int
  chat_id : Option Int
deriving DecidableEq

/-- A row of the `message_offset` table (watermark history). -/
structure OffsetRow where
  last_update_id : Int
  last_processed_time : Int
deriving DecidableEq

/-- A row of the `processed_messages` table (de-duplication records). -/
structure ProcessedRow where
  update_id : Int
  message_id : Option Int
  chat_id : Option Int
  message_type : String
  processed_time : Int
deriving DecidableEq

/-- The persistent state owned by `MessageOffsetManager`: both tables plus the
logical clock supplying the `CURRENT_TIMESTAMP` column defaults. -/
structure Store where
  message_offset : List OffsetRow
  processed_messages : List ProcessedRow
  clock : Int
deriving DecidableEq

/-- A freshly initialised database (`_init_database` on a new file). -/
def initStore : Store := ⟨[], [], 0⟩

/-- `MessageOffsetManager.get_last_offset`:
`SELECT MAX(last_update_id) FROM message_offset`, `none` when the table is
empty (cold start). -/
def get_last_offset (s : Store) : Option Int :=
  (s.message_offset.map (·.last_update_id)).max?

/-- `MessageOffsetManager.update_offset`: `INSERT INTO message_offset
(last_update_id) VALUES (?)` — append-only watermark history. -/
def update_offset (s : Store) (update_id : Int) : Store :=
  { s with
    message_offset := s.message_offset ++ [⟨update_id, s.clock⟩]
    clock := s.clock + 1 }

/-- `MessageOffsetManager.is_message_processed`: membership test in
`processed_messages` keyed by `update_id`. -/
def is_message_processed (s : Store) (update_id : Int) : Bool :=
  s.processed_messages.any (fun r => r.update_id == update_id)

/-- The `message_type` string stored by `mark_message_processed`: only updates
carrying `message` or `callback_query` get a named type, anything else is
recorded as "unknown". -/
def messageTypeOf : UpdKind → String
  | .message => "message"
  | .callbackQuery => "callback_query"
  | _ => "unknown"

/-- `mark_message_processed` extracts `message_id`/`chat_id` only from
`update.message` or `update.callback_query.message`. -/
def extractIds (u : Upd) : Option Int × Option Int :=
  match u.kind with
  | .message => (u.message_id, u.chat_id)
  | .callbackQuery => (u.message_id, u.chat_id)
  | _ => (none, none)

/-- `MessageOffsetManager.mark_message_processed`: `INSERT OR REPLACE INTO
processed_messages` — idempotent upsert keyed by `update_id` (any existing row
with the same key is replaced). -/
def mark_message_processed (s : Store) (u : Upd) : Store :=
  { s with
    processed_messages :=
      s.processed_messages.filter (fun r => !(r.update_id == u.update_id)) ++
        [⟨u.update_id, (extractIds u).1, (extractIds u).2,
          messageTypeOf u.kind, s.clock⟩]
    clock := s.clock + 1 }

/-- `MessageOffsetManager.cleanup_old_records`: keeps only the watermark rows
with fewer than 10 strictly more recent rows (the SQL `DELETE ... WHERE id NOT
IN (SELECT id ... ORDER BY last_processed_time DESC LIMIT 10)`; row times are
distinct in every reachable store, where this is exactly "the 10 most recent
rows"), and deletes processed-message rows older than `days` days (`DELETE ...
WHERE processed_time < datetime(now, -days)`); `now` stands for SQLite's
current time and `days` defaults to 7 at the call sites. -/
def cleanup_old_records (s : Store) (now days : Int) : Store :=
  { s with
    message_offset := s.message_offset.filter
      (fun r =>
        decide ((s.message_offset.filter
          (fun r2 => decide (r.last_processed_time < r2.last_processed_time))).length < 10))
    processed_messages := s.processed_messages.filter
      (fun r => decide (now - days ≤ r.processed_time)) }

/-- The handler dict passed to `process_backlog_messages`: which of the keys
"message" / "callback_query" / "inline_query" are present, and whether the
dispatched handler returns normally (`ok u = false` models it raising). -/
structure Handlers where
  hasMessage : Bool
  hasCallback : Bool
  hasInline : Bool
  ok : Upd → Bool

/-- `MessageQueueProcessor._process_single_update`: pick the handler for the
update kind; return whether handling succeeded, together with the ids on which
a handler was actually invoked (the side-effect trace).  A missing handler or
an absent payload falls through to the warning path and returns failure
without invoking anything; a handler exception is caught and also returns
failure, but the handler did run. -/
def process_single_update (h : Handlers) (u : Upd) : Bool × List Int :=
  match u.kind with
  | .message => if h.hasMessage then (h.ok u, [u.update_id]) else (false, [])
  | .callbackQuery => if h.hasCallback then (h.ok u, [u.update_id]) else (false, [])
  | .inlineQuery => if h.hasInline then (h.ok u, [u.update_id]) else (false, [])
  | .other => (false, [])

/-- Whether `_process_single_update` reports success for `u`. -/
def dispatchOk (h : Handlers) (u : Upd) : Bool :=
  (process_single_update h u).1

/-- `MessageQueueProcessor.get_pending_updates` over a fixed transport buffer:
up to `limit` buffered updates with id `≥ offset`; `offset = none` means no
lower bound. -/
def get_pending_updates (buffer : List Upd) (offset : Option Int) (limit : Nat) :
    List Upd :=
  match offset with
  | none => buffer.take limit
  | some o => (buffer.filter (fun u => decide (o ≤ u.update_id))).take limit

/-- `self.batch_size = 100` in `MessageQueueProcessor.__init__`. -/
def batch_size : Nat := 100

/-- The mutable locals of one `process_backlog_messages` call: the store, the
`current_offset` variable, both counters, and the handler-invocation trace. -/
structure DrainState where
  store : Store
  current_offset : Option Int
  processed_count : Nat
  failed_count : Nat
  trace : List Int
deriving DecidableEq

/-- The `for update in updates` body of `process_backlog_messages`: skip
already-processed updates (without touching `current_offset`), otherwise
dispatch; on success mark processed and record the watermark; either way
advance `current_offset` past the dispatched update. -/
def processBatch (h : Handlers) : List Upd → DrainState → DrainState
  | [], st => st
  | u :: rest, st =>
    if is_message_processed st.store u.update_id then
      processBatch h rest st
    else
      let r := process_single_update h u
      processBatch h rest
        { store :=
            if r.1 then update_offset (mark_message_processed st.store u) u.update_id
            else st.store
          current_offset := some (u.update_id + 1)
          processed_count := st.processed_count + (if r.1 then 1 else 0)
          failed_count := st.failed_count + (if r.1 then 0 else 1)
          trace := st.trace ++ r.2 }

/-- The `while True` loop of `process_backlog_messages`, with explicit fuel:
fetch a batch at `current_offset`; an empty batch stops, a batch smaller than
`batch_size` stops after being processed, otherwise loop.  `none` means the
loop did not finish within `fuel` iterations. -/
def drainLoop (h : Handlers) (buffer : List Upd) : Nat → DrainState → Option DrainState
  | 0, _ => none
  | fuel + 1, st =>
    let updates := get_pending_updates buffer st.current_offset batch_size
    if updates.isEmpty then some st
    else
      let st' := processBatch h updates st
      if updates.length < batch_size then some st'
      else drainLoop h buffer fuel st'

/-- `MessageQueueProcessor.process_backlog_messages`: resume from
`get_last_offset() + 1` (or no lower bound on cold start) and drain.  The
source returns `(processed_count, failed_count)`; the model returns the whole
final `DrainState`, of which those counters are fields. -/
def process_backlog_messages (h : Handlers) (buffer : List Upd) (fuel : Nat)
    (s : Store) : Option DrainState :=
  let start : Option Int :=
    match get_last_offset s with
    | some l => some (l + 1)
    | none => none
  drainLoop h buffer fuel
    { store := s
      current_offset := start
      processed_count := 0
      failed_count := 0
      trace := [] }

/-- The state owned by `ReconnectionManager`: probe bookkeeping and the
recovering flag.  `connection_check_interval` is set to 300 by `__init__`
(`initManager`). -/
structure ReconnectionManager where
  last_connection_check : Int
  connection_check_interval : Int
  is_recovering : Bool
deriving DecidableEq

/-- `ReconnectionManager.__init__`. -/
def initManager (now : Int) : ReconnectionManager := ⟨now, 300, false⟩

/-- Outcome of the `bot.get_me()` liveness probe: returns normally, raises
`telegram.error.NetworkError`, or raises some other exception. -/
inductive ProbeResult where
  | ok
  | networkError
  | otherError
deriving DecidableEq

/-- Observable outcome of one `check_connection_and_recover` call: the new
manager state, the resulting store, the returned boolean, and how many times
the liveness probe and the recovery drain ran during the call. -/
structure CheckResult where
  manager : ReconnectionManager
  store : Store
  healthy : Bool
  probes : Nat
  drains : Nat
deriving DecidableEq

/-- `ReconnectionManager._recover_messages`: run the full drain; any error it
raises (in the model: the fuelled loop not finishing, its only failure mode)
is caught and logged, leaving the store as the drain left it — the model keeps
the pre-drain store in that case, since the fuelled model cannot observe a
partial run. -/
def recover_messages (h : Handlers) (buffer : List Upd) (fuel : Nat)
    (s : Store) : Store :=
  match process_backlog_messages h buffer fuel s with
  | some st => st.store
  | none => s

/-- `ReconnectionManager.check_connection_and_recover`: rate-limit probes to
one per `connection_check_interval` (returning healthy in between); probe; on
failure enter the recovering state and report unhealthy; on success after a
detected outage run the recovery drain once and clear the flag. -/
def check_connection_and_recover (rm : ReconnectionManager) (now : Int)
    (probe : ProbeResult) (h : Handlers) (buffer : List Upd) (fuel : Nat)
    (s : Store) : CheckResult :=
  if now - rm.last_connection_check < rm.connection_check_interval then
    ⟨rm, s, true, 0, 0⟩
  else
    let rm1 := { rm with last_connection_check := now }
    match probe with
    | .ok =>
      if rm1.is_recovering then
        ⟨{ rm1 with is_recovering := false },
          recover_messages h buffer fuel s, true, 1, 1⟩
      else ⟨rm1, s, true, 1, 0⟩
    | _ => ⟨{ rm1 with is_recovering := true }, s, false, 1, 0⟩

/-! Media-group collector (`src/services/telegram_service/media_group.py`).
Python dict `self._groups` is modelled as an association list with unique
keys; the per-group `threading.Timer` objects and the lock are not part of the
model — `process_group` models the timer callback `_process_group` firing. -/

/-- A message as seen by the collector: its id and optional media group id. -/
structure Msg where
  message_id : Int
  media_group_id : Option String
deriving DecidableEq

/-- Buffer ordering: by `message_id`. -/
def msgLe (a b : Msg) : Prop := a.message_id ≤ b.message_id

instance : DecidableRel msgLe := fun a b =>
  inferInstanceAs (Decidable (a.message_id ≤ b.message_id))

instance : IsTotal Msg msgLe := ⟨fun a b => le_total a.message_id b.message_id⟩

instance : IsTrans Msg msgLe := ⟨fun _ _ _ => le_trans⟩

/-- The message buffer of one media group (`MediaGroupData`; the `context`,
`update`, `timer` and `created_at` fields are not modelled). -/
structure MediaGroupData where
  messages : List Msg
deriving DecidableEq

/-- `MediaGroupData.add_message`: append, then keep the buffer sorted by
message id (`self.messages.sort(key=lambda m: m.message_id)`; Python's stable
sort is modelled by insertion sort, also a stable sort). -/
def MediaGroupData.add_message (g : MediaGroupData) (m : Msg) : MediaGroupData :=
  ⟨List.insertionSort msgLe (g.messages ++ [m])⟩

/-- The live-group table `self._groups` of `MediaGroupCollector`. -/
structure MediaGroupCollector where
  groups : List (String × MediaGroupData)
deriving DecidableEq

/-- Python `media_group_id in self._groups` / `self._groups[media_group_id]`. -/
def lookupGroup : List (String × MediaGroupData) → String → Option MediaGroupData
  | [], _ => none
  | (k, g) :: rest, gid => if k = gid then some g else lookupGroup rest gid

/-- Python `self._groups[media_group_id] = g`: replace in place, or add the
key when absent. -/
def storeGroup : List (String × MediaGroupData) → String → MediaGroupData →
    List (String × MediaGroupData)
  | [], gid, g => [(gid, g)]
  | (k, g0) :: rest, gid, g =>
    if k = gid then (gid, g) :: rest else (k, g0) :: storeGroup rest gid g

/-- Python `self._groups.pop(media_group_id)`: remove the key. -/
def popGroup : List (String × MediaGroupData) → String →
    List (String × MediaGroupData)
  | [], _ => []
  | (k, g0) :: rest, gid =>
    if k = gid then rest else (k, g0) :: popGroup rest gid

/-- `MediaGroupCollector.add_message`: a message without a media group id is
not handled (returns `false`, collector untouched); otherwise create the
group buffer if absent, add the message to it, and report handled (the timer
cancel/restart is not part of the model). -/
def MediaGroupCollector.add_message (c : MediaGroupCollector) (m : Msg) :
    MediaGroupCollector × Bool :=
  match m.media_group_id with
  | none => (c, false)
  | some gid =>
    let g := (lookupGroup c.groups gid).getD ⟨[]⟩
    ({ groups := storeGroup c.groups gid (g.add_message m) }, true)

/-- `MediaGroupCollector._process_group` (the timer callback): if the group id
is unknown, warn and do nothing; otherwise pop the buffer from the live table
(while holding the lock) and only then hand its message list to the callback.
The callback's messages are returned as the second component; the resulting
collector state does not depend on what the callback does (its exceptions are
caught and logged), so a callback failure can neither resurrect the group nor
trigger a retry. -/
def MediaGroupCollector.process_group (c : MediaGroupCollector) (gid : String) :
    MediaGroupCollector × Option (List Msg) :=
  match lookupGroup c.groups gid with
  | none => (c, none)
  | some g => (⟨popGroup c.groups gid⟩, some g.messages)

/-! Derived notions and concrete fixtures used by the theorems below. -/

/-- The success path of the drain body: mark the update processed, then record
its id as the new watermark. -/
def markStep (s : Store) (u : Upd) : Store :=
  update_offset (mark_message_processed s u) u.update_id

/-- The update ids of a list of updates. -/
def idsOf (l : List Upd) : List Int := l.map (·.update_id)

/-- What remains of the transport buffer at a given fetch offset (the fetch
returns `(offsetFilter buffer c).take limit`). -/
def offsetFilter (buffer : List Upd) (c : Option Int) : List Upd :=
  match c with
  | none => buffer
  | some o => buffer.filter (fun u => decide (o ≤ u.update_id))

/-- The value of `current_offset` after dispatching every update of `batch`
in order, starting from `c`. -/
def lastOffsetAfter (batch : List Upd) (c : Option Int) : Option Int :=
  match batch.getLast? with
  | some u => some (u.update_id + 1)
  | none => c

/-- A transport buffer in strictly ascending update-id order (the order the
Telegram API delivers updates in). -/
def StrictAsc (l : List Upd) : Prop :=
  List.Pairwise (fun a b => a.update_id < b.update_id) l

/-- A plain-message update with the given id. -/
def mkMsgUpd (i : Int) : Upd := ⟨i, .message, some i, some 1⟩

/-- A handler table with all three keys present and every handler returning
normally. -/
def allOkHandlers : Handlers := ⟨true, true, true, fun _ => true⟩

/-- A handler table whose message handler raises exactly on update id 3. -/
def failOn3Handlers : Handlers := ⟨true, true, true, fun u => decide (u.update_id ≠ 3)⟩

/-- A handler table whose handlers always raise. -/
def alwaysFailHandlers : Handlers := ⟨true, true, true, fun _ => false⟩

/-- A backlog of five messages, ids 1 to 5. -/
def backlog5 : List Upd := [mkMsgUpd 1, mkMsgUpd 2, mkMsgUpd 3, mkMsgUpd 4, mkMsgUpd 5]

/-- A backlog of 120 messages, ids 1 to 120. -/
def backlog120 : List Upd := (List.range 120).map (fun i => mkMsgUpd (Int.ofNat i + 1))

/-- A backlog of exactly `batch_size` messages, ids 1 to 100. -/
def backlog100 : List Upd := (List.range 100).map (fun i => mkMsgUpd (Int.ofNat i + 1))

/-- A store in which every update of `backlog100` is already recorded in
`processed_messages`, but no watermark row exists (as after a crash between
`mark_message_processed` and `update_offset` on each, or after the watermark
history was emptied). -/
def preProcessed100 : Store := backlog100.foldl mark_message_processed initStore

/-- A poison backlog: the single message id 1, whose handler always raises. -/
def poisonBuf : List Upd := [mkMsgUpd 1]

/-- First drain over `poisonBuf` from a fresh store. -/
def poisonRun1 : Option DrainState :=
  process_backlog_messages alwaysFailHandlers poisonBuf 2 initStore

/-- Second drain over `poisonBuf`, resuming from the store the first one
left. -/
def poisonRun2 : Option DrainState :=
  match poisonRun1 with
  | some st => process_backlog_messages alwaysFailHandlers poisonBuf 2 st.store
  | none => none

/-- A watermark history of 11 rows in which the maximum `last_update_id`
(100) sits in the oldest row: rows (100 at time 0), then (1 at time 1) …
(10 at time 10). -/
def staleMaxStore : Store :=
  { message_offset :=
      ⟨100, 0⟩ :: (List.range 10).map (fun i => ⟨Int.ofNat i + 1, Int.ofNat i + 1⟩)
    processed_messages := []
    clock := 11 }

/-! Theorems. -/

/-- C2: poison-message isolation.  Over the batch `[1,2,3,4,5]` whose handler
raises exactly on id 3, the drain returns `processed = 4, failed = 1`; no
de-duplication record and no watermark row exists for id 3 afterwards
(`is_message_processed 3` is `false`), ids 1, 2, 4, 5 are all marked
processed, every message including the two after the poison one was
dispatched (trace `[1,2,3,4,5]`), and `current_offset` advanced past the
whole batch to 6. -/
theorem poison_message_isolation :
    (process_backlog_messages failOn3Handlers backlog5 1 initStore).map
      (fun st => (st.processed_count, st.failed_count)) = some (4, 1) ∧
    (process_backlog_messages failOn3Handlers backlog5 1 initStore).map
      (fun st => is_message_processed st.store 3) = some false ∧
    (process_backlog_messages failOn3Handlers backlog5 1 initStore).map
      (fun st => (st.store.message_offset.map (·.last_update_id)).contains 3) =
      some false ∧
    (process_backlog_messages failOn3Handlers backlog5 1 initStore).map
      (fun st =>
        [is_message_processed st.store 1, is_message_processed st.store 2,
          is_message_processed st.store 4, is_message_processed st.store 5]) =
      some [true, true, true, true] ∧
    (process_backlog_messages failOn3Handlers backlog5 1 initStore).map (·.trace) =
      some [1, 2, 3, 4, 5] ∧
    (process_backlog_messages failOn3Handlers backlog5 1 initStore).map
      (·.current_offset) = some (some 6) := by
  decide

set_option maxRecDepth 8000 in
/-- C4: cold start.  On an empty store `get_last_offset` is `none`, so the
drain's first fetch carries no lower bound (it sees the whole buffered
backlog); a 120-message backlog arrives as a full batch of 100 followed by a
short batch of 20, the drain finishes within two loop iterations (fuel 2
suffices) with `processed = 120, failed = 0`, the short final batch (20 <
`batch_size` = 100) having stopped the loop; an empty fetch also stops the
loop immediately. -/
theorem cold_start_drain :
    get_last_offset initStore = none ∧
    get_pending_updates backlog120 none batch_size = backlog120.take 100 ∧
    (get_pending_updates backlog120 (some 101) batch_size).length = 20 ∧
    (process_backlog_messages allOkHandlers backlog120 2 initStore).map
      (fun st => (st.processed_count, st.failed_count)) = some (120, 0) ∧
    (process_backlog_messages allOkHandlers [] 1 initStore).map
      (fun st => (st.processed_count, st.failed_count)) = some (0, 0) := by
  decide

/-- C10: a `check_connection_and_recover` call made strictly less than
`connection_check_interval` seconds after the previous check returns `True`
without probing upstream, without draining, and without touching any state —
including the `is_recovering` flag and the store — whatever the probe would
have answered. -/
theorem rate_limited_check_is_noop (rm : ReconnectionManager) (now : Int)
    (probe : ProbeResult) (h : Handlers) (buffer : List Upd) (fuel : Nat)
    (s : Store)
    (hlt : now - rm.last_connection_check < rm.connection_check_interval) :
    check_connection_and_recover rm now probe h buffer fuel s =
      ⟨rm, s, true, 0, 0⟩ := by
  simp [check_connection_and_recover, hlt]

theorem rate_limited_check_is_noop_witness :
    ((100 : Int) - 0 < 300) ∧
    check_connection_and_recover ⟨0, 300, true⟩ 100 .networkError allOkHandlers
      backlog5 0 initStore = ⟨⟨0, 300, true⟩, initStore, true, 0, 0⟩ :=
  ⟨by decide,
    rate_limited_check_is_noop ⟨0, 300, true⟩ 100 .networkError allOkHandlers
      backlog5 0 initStore (by decide)⟩

/-- C5: exactly one recovery per outage.  When a probe is due: a failing probe
(network error or any other exception) from any state leaves the manager in
the recovering state with no drain run and reports unhealthy — in particular
repeated failing probes keep drain count at 0 per call; the first successful
probe while recovering runs the recovery drain exactly once, transitions to
healthy, and reports healthy — for every fuel, including fuel on which the
drain fails (`recover_messages` swallows drain errors), so a drain failure
does not prevent the transition; a successful probe while already healthy
runs no drain. -/
theorem outage_single_recovery (rm : ReconnectionManager) (now : Int)
    (h : Handlers) (buffer : List Upd) (fuel : Nat) (s : Store)
    (hdue : rm.connection_check_interval ≤ now - rm.last_connection_check) :
    (∀ probe, probe ≠ ProbeResult.ok →
      check_connection_and_recover rm now probe h buffer fuel s =
        ⟨⟨now, rm.connection_check_interval, true⟩, s, false, 1, 0⟩) ∧
    (rm.is_recovering = true →
      check_connection_and_recover rm now .ok h buffer fuel s =
        ⟨⟨now, rm.connection_check_interval, false⟩,
          recover_messages h buffer fuel s, true, 1, 1⟩) ∧
    (rm.is_recovering = false →
      check_connection_and_recover rm now .ok h buffer fuel s =
        ⟨⟨now, rm.connection_check_interval, false⟩, s, true, 1, 0⟩) := by
  have hnlt : ¬ (now - rm.last_connection_check < rm.connection_check_interval) :=
    not_lt.mpr hdue
  refine ⟨fun probe hp => ?_, fun hrec => ?_, fun hrec => ?_⟩
  · cases probe
    · exact absurd rfl hp
    · simp [check_connection_and_recover, hnlt]
    · simp [check_connection_and_recover, hnlt]
  · simp [check_connection_and_recover, hnlt, hrec]
  · simp [check_connection_and_recover, hnlt, hrec]

theorem outage_single_recovery_witness :
    ((300 : Int) ≤ 300 - 0) ∧
    ((∀ probe, probe ≠ ProbeResult.ok →
      check_connection_and_recover ⟨0, 300, true⟩ 300 probe allOkHandlers
        backlog5 0 initStore = ⟨⟨300, 300, true⟩, initStore, false, 1, 0⟩) ∧
    ((⟨0, 300, true⟩ : ReconnectionManager).is_recovering = true →
      check_connection_and_recover ⟨0, 300, true⟩ 300 .ok allOkHandlers
        backlog5 0 initStore =
        ⟨⟨300, 300, false⟩, recover_messages allOkHandlers backlog5 0 initStore,
          true, 1, 1⟩) ∧
    ((⟨0, 300, true⟩ : ReconnectionManager).is_recovering = false →
      check_connection_and_recover ⟨0, 300, true⟩ 300 .ok allOkHandlers
        backlog5 0 initStore = ⟨⟨300, 300, false⟩, initStore, true, 1, 0⟩)) :=
  ⟨by decide,
    outage_single_recovery ⟨0, 300, true⟩ 300 allOkHandlers backlog5 0 initStore
      (by decide)⟩

/-- `mark_message_processed` never touches the watermark table. -/
theorem foldl_mark_message_offset (l : List Upd) : ∀ s : Store,
    (l.foldl mark_message_processed s).message_offset = s.message_offset := by
  induction l with
  | nil => intro s; rfl
  | cons u l ih => intro s; exact ih (mark_message_processed s u)

/-- An already-recorded backlog is empty for `get_last_offset`. -/
theorem get_last_offset_preProcessed100 : get_last_offset preProcessed100 = none := by
  show get_last_offset (backlog100.foldl mark_message_processed initStore) = none
  rw [get_last_offset, foldl_mark_message_offset]
  rfl

/-- A batch consisting entirely of already-processed updates leaves the drain
state — including `current_offset` — completely unchanged. -/
theorem processBatch_skip_all (h : Handlers) (batch : List Upd) : ∀ st : DrainState,
    (∀ u ∈ batch, is_message_processed st.store u.update_id = true) →
    processBatch h batch st = st := by
  induction batch with
  | nil => intro st _; rfl
  | cons u batch ih =>
    intro st hall
    have h1 := hall u (List.mem_cons_self u batch)
    simp only [processBatch, h1, if_true]
    exact ih st (fun x hx => hall x (List.mem_cons_of_mem u hx))

set_option maxRecDepth 4000 in
/-- Every update of `backlog100` is already recorded in `preProcessed100`. -/
theorem backlog100_all_processed :
    ∀ u ∈ backlog100, is_message_processed preProcessed100 u.update_id = true := by
  decide

/-- C9: a skipped (already-processed) update does not advance the fetch
offset — `current_offset` is only assigned after a dispatch, and the
`continue` branch bypasses it.  Consequently, on a backlog of exactly
`batch_size` updates all of which are already in `processed_messages` (and
with no watermark row to raise the fetch offset), every iteration of the
drain loop refetches the identical full batch from the identical offset and
skips it all again: `process_backlog_messages` diverges — it fails to finish
within `fuel` iterations for every `fuel`, whatever the handler table. -/
theorem skipped_updates_refetch_diverges :
    (∀ (h : Handlers) (u : Upd) (rest : List Upd) (st : DrainState),
      is_message_processed st.store u.update_id = true →
      processBatch h (u :: rest) st = processBatch h rest st) ∧
    (∀ (h : Handlers) (fuel : Nat),
      process_backlog_messages h backlog100 fuel preProcessed100 = none) := by
  constructor
  · intro h u rest st hskip
    simp only [processBatch, hskip, if_true]
  · intro h fuel
    suffices hsuf : ∀ n, drainLoop h backlog100 n
        ⟨preProcessed100, none, 0, 0, []⟩ = none by
      rw [process_backlog_messages, get_last_offset_preProcessed100]
      exact hsuf fuel
    intro n
    induction n with
    | zero => rfl
    | succ n ih =>
      have hupd : get_pending_updates backlog100 none batch_size = backlog100 :=
        List.take_of_length_le (by decide)
      have hskipall := processBatch_skip_all h backlog100
        ⟨preProcessed100, none, 0, 0, []⟩ backlog100_all_processed
      simp only [drainLoop, hupd, hskipall]
      rw [if_neg (by decide : ¬ backlog100.isEmpty = true),
        if_neg (by decide : ¬ backlog100.length < batch_size)]
      exact ih

set_option maxRecDepth 4000 in
theorem skipped_updates_refetch_diverges_witness :
    is_message_processed preProcessed100 1 = true ∧
    processBatch allOkHandlers [mkMsgUpd 1] ⟨preProcessed100, none, 0, 0, []⟩ =
      processBatch allOkHandlers [] ⟨preProcessed100, none, 0, 0, []⟩ ∧
    process_backlog_messages allOkHandlers backlog100 5 preProcessed100 = none :=
  ⟨by decide,
    skipped_updates_refetch_diverges.1 allOkHandlers (mkMsgUpd 1) []
      ⟨preProcessed100, none, 0, 0, []⟩ (by decide),
    skipped_updates_refetch_diverges.2 allOkHandlers 5⟩

/-- Recording a watermark does not touch the de-duplication table. -/
theorem is_message_processed_update_offset (s : Store) (i x : Int) :
    is_message_processed (update_offset s i) x = is_message_processed s x := rfl

/-- Dropping the rows keyed `a` from a table does not change membership of a
different key `x`. -/
theorem any_key_filter_ne (l : List ProcessedRow) (a x : Int) (hne : x ≠ a) :
    (l.filter (fun r => !(r.update_id == a))).any (fun r => r.update_id == x) =
      l.any (fun r => r.update_id == x) := by
  have hax : ¬ (a = x) := fun h => hne h.symm
  induction l with
  | nil => rfl
  | cons r l ih =>
    by_cases hra : r.update_id = a
    · simp [List.filter_cons, List.any_cons, hra, hax, ih]
    · simp [List.filter_cons, List.any_cons, hra, ih]

/-- Upserting the de-duplication record for `u` leaves membership of every
other key unchanged. -/
theorem is_message_processed_mark_of_ne (s : Store) (u : Upd) (x : Int)
    (hne : x ≠ u.update_id) :
    is_message_processed (mark_message_processed s u) x =
      is_message_processed s x := by
  have hux : ¬ (u.update_id = x) := fun h => hne h.symm
  simp only [is_message_processed, mark_message_processed]
  rw [List.any_append]
  have h1 : ([⟨u.update_id, (extractIds u).1, (extractIds u).2,
      messageTypeOf u.kind, s.clock⟩] : List ProcessedRow).any
        (fun r => r.update_id == x) = false := by
    simpa using hux
  rw [h1, Bool.or_false]
  exact any_key_filter_ne s.processed_messages u.update_id x hne

/-- The success path for `u` leaves the de-duplication status of every other
id unchanged. -/
theorem is_message_processed_markStep_of_ne (s : Store) (u : Upd) (x : Int)
    (hne : x ≠ u.update_id) :
    is_message_processed (markStep s u) x = is_message_processed s x := by
  rw [markStep, is_message_processed_update_offset]
  exact is_message_processed_mark_of_ne s u x hne

/-- Processing a batch does not create de-duplication records for ids outside
the batch. -/
theorem foldl_markStep_processed_of_not_mem (batch : List Upd) :
    ∀ (s : Store) (x : Int), x ∉ idsOf batch →
    is_message_processed (batch.foldl markStep s) x = is_message_processed s x := by
  induction batch with
  | nil => intro s x _; rfl
  | cons u batch ih =>
    intro s x hx
    simp only [idsOf, List.map_cons, List.mem_cons, not_or] at hx
    rw [List.foldl_cons, ih (markStep s u) x (by simpa [idsOf] using hx.2)]
    exact is_message_processed_markStep_of_ne s u x hx.1

/-- Processing a batch appends exactly the batch's ids to the watermark
history, in order. -/
theorem foldl_markStep_message_offset (batch : List Upd) : ∀ s : Store,
    ((batch.foldl markStep s).message_offset).map (·.last_update_id) =
      (s.message_offset.map (·.last_update_id)) ++ idsOf batch := by
  induction batch with
  | nil => intro s; simp [idsOf]
  | cons u batch ih =>
    intro s
    rw [List.foldl_cons, ih (markStep s u)]
    simp [markStep, update_offset, mark_message_processed, idsOf]

/-- When dispatch succeeds, the handler for `u`'s kind was present, ran on
`u`, and returned normally. -/
theorem process_single_update_of_ok (h : Handlers) (u : Upd)
    (hok : dispatchOk h u = true) :
    process_single_update h u = (true, [u.update_id]) := by
  rw [dispatchOk] at hok
  cases hk : u.kind <;> rw [process_single_update, hk] at hok ⊢ <;>
    simp only at hok ⊢
  · by_cases hm : h.hasMessage = true
    · simp only [hm, if_true] at hok ⊢
      rw [hok]
    · simp [hm] at hok
  · by_cases hm : h.hasCallback = true
    · simp only [hm, if_true] at hok ⊢
      rw [hok]
    · simp [hm] at hok
  · by_cases hm : h.hasInline = true
    · simp only [hm, if_true] at hok ⊢
      rw [hok]
    · simp [hm] at hok
  · exact absurd hok (by simp)

instance : Std.Antisymm (fun a b : Int => a ≤ b) :=
  ⟨fun h h' => le_antisymm h h'⟩

/-- `List.max?` on integers computes a greatest element. -/
theorem int_max?_eq_some_iff {a : Int} {xs : List Int} :
    xs.max? = some a ↔ a ∈ xs ∧ ∀ b ∈ xs, b ≤ a :=
  List.max?_eq_some_iff (fun a => le_refl a) (fun a b => max_choice a b)
    (fun _ _ _ => max_le_iff)

/-- `List.max?` on integers only depends on the elements, not their order. -/
theorem int_max?_perm {l l' : List Int} (hp : l.Perm l') : l.max? = l'.max? := by
  cases h : l'.max? with
  | none =>
    rw [List.max?_eq_none_iff] at h ⊢
    exact (h ▸ hp).eq_nil
  | some m =>
    rw [int_max?_eq_some_iff] at h ⊢
    exact ⟨hp.mem_iff.mpr h.1, fun b hb => h.2 b (hp.subset hb)⟩

/-- A nonempty list has a last element. -/
theorem getLast?_cons_is_some (x : Upd) (l : List Upd) :
    ∃ b, (x :: l).getLast? = some b := by
  cases h : (x :: l).getLast? with
  | none => exact absurd (List.getLast?_eq_none_iff.mp h) (by simp)
  | some b => exact ⟨b, rfl⟩

/-- `lastOffsetAfter` peels its first element. -/
theorem lastOffsetAfter_cons (u : Upd) (rest : List Upd) (c : Option Int) :
    lastOffsetAfter (u :: rest) c = lastOffsetAfter rest (some (u.update_id + 1)) := by
  cases rest with
  | nil => rfl
  | cons v rest =>
    obtain ⟨b, hb⟩ := getLast?_cons_is_some v rest
    simp [lastOffsetAfter, List.getLast?_cons_cons, hb]

/-- `lastOffsetAfter` composes over concatenation. -/
theorem lastOffsetAfter_append (l1 l2 : List Upd) (c : Option Int) :
    lastOffsetAfter (l1 ++ l2) c = lastOffsetAfter l2 (lastOffsetAfter l1 c) := by
  cases l2 with
  | nil => simp [lastOffsetAfter]
  | cons x l2 =>
    obtain ⟨b, hb⟩ := getLast?_cons_is_some x l2
    simp [lastOffsetAfter, List.getLast?_append_cons, hb]

/-- The last element of a list is one of its elements. -/
theorem mem_of_getLast?_eq {l : List Upd} {b : Upd} (hb : l.getLast? = some b) :
    b ∈ l := by
  obtain ⟨ys, rfl⟩ := List.getLast?_eq_some_iff.mp hb
  exact List.mem_append_right ys (List.mem_singleton_self b)

/-- In a strictly ascending list, the last element bounds every element. -/
theorem le_getLast_of_pairwise_lt (l : List Upd)
    (hpw : List.Pairwise (fun a b : Upd => a.update_id < b.update_id) l)
    (b : Upd) (hb : l.getLast? = some b) :
    ∀ x ∈ l, x.update_id ≤ b.update_id := by
  obtain ⟨ys, rfl⟩ := List.getLast?_eq_some_iff.mp hb
  intro x hx
  rcases List.mem_append.mp hx with hx | hx
  · exact le_of_lt ((List.pairwise_append.mp hpw).2.2 x hx b
      (List.mem_singleton_self b))
  · rw [List.mem_singleton.mp hx]

/-- The fetch returns the `limit`-long head of what remains past the offset. -/
theorem get_pending_updates_eq (buffer : List Upd) (c : Option Int) (limit : Nat) :
    get_pending_updates buffer c limit = (offsetFilter buffer c).take limit := by
  cases c <;> rfl

/-- The remaining backlog is made of buffered updates. -/
theorem offsetFilter_sublist (buffer : List Upd) (c : Option Int) :
    (offsetFilter buffer c).Sublist buffer := by
  cases c with
  | none => exact List.Sublist.refl buffer
  | some o => exact List.filter_sublist buffer

/-- In a strictly ascending list, keeping only ids strictly past the last
element of the length-`n` prefix keeps exactly the elements after that
prefix. -/
theorem filter_past_take (L : List Upd)
    (hpw : List.Pairwise (fun a b : Upd => a.update_id < b.update_id) L)
    (n : Nat) (b : Upd) (hb : (L.take n).getLast? = some b) :
    L.filter (fun u => decide (b.update_id + 1 ≤ u.update_id)) = L.drop n := by
  conv_lhs => rw [← List.take_append_drop n L]
  rw [List.filter_append]
  have hpw2 : List.Pairwise (fun a b : Upd => a.update_id < b.update_id)
      (L.take n ++ L.drop n) := by
    rw [List.take_append_drop]; exact hpw
  have htake : (L.take n).filter
      (fun u => decide (b.update_id + 1 ≤ u.update_id)) = [] := by
    rw [List.filter_eq_nil_iff]
    intro x hx
    have hle := le_getLast_of_pairwise_lt (L.take n)
      (List.Pairwise.sublist (List.take_sublist n L) hpw) b hb x hx
    simp only [decide_eq_true_eq]
    omega
  have hdrop : (L.drop n).filter
      (fun u => decide (b.update_id + 1 ≤ u.update_id)) = L.drop n := by
    rw [List.filter_eq_self]
    intro y hy
    have hbmem : b ∈ L.take n := mem_of_getLast?_eq hb
    have hcross := (List.pairwise_append.mp hpw2).2.2 b hbmem y hy
    simp only [decide_eq_true_eq]
    omega
  rw [htake, hdrop, List.nil_append]

/-- Advancing the fetch offset just past the last dispatched update discards
exactly the consumed prefix of the remaining backlog. -/
theorem offsetFilter_advance (buffer : List Upd)
    (hpw : List.Pairwise (fun a b : Upd => a.update_id < b.update_id) buffer)
    (c : Option Int) (L : List Upd) (hL : offsetFilter buffer c = L)
    (n : Nat) (b : Upd) (hb : (L.take n).getLast? = some b) :
    offsetFilter buffer (some (b.update_id + 1)) = L.drop n := by
  have hpwL : List.Pairwise (fun a b : Upd => a.update_id < b.update_id) L :=
    hL ▸ List.Pairwise.sublist (offsetFilter_sublist buffer c) hpw
  cases c with
  | none =>
    have hbl : buffer = L := hL
    show buffer.filter (fun u => decide (b.update_id + 1 ≤ u.update_id)) = L.drop n
    rw [hbl]
    exact filter_past_take L hpwL n b hb
  | some o =>
    have hbL : b ∈ L := List.take_subset n L (mem_of_getLast?_eq hb)
    have hfL : buffer.filter (fun u => decide (o ≤ u.update_id)) = L := hL
    have hob : o ≤ b.update_id := by
      have hmem : b ∈ buffer.filter (fun u => decide (o ≤ u.update_id)) := by
        rw [hfL]; exact hbL
      simpa using List.of_mem_filter hmem
    show buffer.filter (fun u => decide (b.update_id + 1 ≤ u.update_id)) = L.drop n
    have hstep : buffer.filter (fun u => decide (b.update_id + 1 ≤ u.update_id)) =
        (buffer.filter (fun u => decide (o ≤ u.update_id))).filter
          (fun u => decide (b.update_id + 1 ≤ u.update_id)) := by
      rw [List.filter_filter]
      refine List.filter_congr (fun u _ => ?_)
      by_cases hp : b.update_id + 1 ≤ u.update_id
      · have hq : o ≤ u.update_id := by omega
        simp [hp, hq]
      · simp [hp]
    rw [hstep, hfL]
    exact filter_past_take L hpwL n b hb

/-- Processing a batch of fresh updates on which every dispatch succeeds:
every update gets marked and its watermark recorded, the success counter
advances by the batch length, the failure counter is untouched, the trace
extends by the batch ids in order, and `current_offset` ends just past the
last update of the batch. -/
theorem processBatch_fresh (h : Handlers) (batch : List Upd) : ∀ st : DrainState,
    (∀ u ∈ batch, is_message_processed st.store u.update_id = false) →
    (∀ u ∈ batch, dispatchOk h u = true) →
    List.Pairwise (fun a b : Upd => a.update_id ≠ b.update_id) batch →
    processBatch h batch st =
      { store := batch.foldl markStep st.store
        current_offset := lastOffsetAfter batch st.current_offset
        processed_count := st.processed_count + batch.length
        failed_count := st.failed_count
        trace := st.trace ++ idsOf batch } := by
  induction batch with
  | nil =>
    intro st _ _ _
    simp [processBatch, lastOffsetAfter, idsOf]
  | cons u batch ih =>
    intro st hfresh hok hpw
    have h1 : is_message_processed st.store u.update_id = false :=
      hfresh u (List.mem_cons_self u batch)
    have h2 := process_single_update_of_ok h u (hok u (List.mem_cons_self u batch))
    rw [List.pairwise_cons] at hpw
    have hfresh' : ∀ v ∈ batch, is_message_processed
        (update_offset (mark_message_processed st.store u) u.update_id)
          v.update_id = false := by
      intro v hv
      have hvne : v.update_id ≠ u.update_id := (hpw.1 v hv).symm
      exact (is_message_processed_markStep_of_ne st.store u v.update_id hvne).trans
        (hfresh v (List.mem_cons_of_mem u hv))
    simp only [processBatch, h1, Bool.false_eq_true, if_false, h2]
    rw [ih _ hfresh' (fun v hv => hok v (List.mem_cons_of_mem u hv)) hpw.2]
    simp only [DrainState.mk.injEq]
    refine ⟨?_, ?_, ?_, ?_, ?_⟩
    · rw [List.foldl_cons, if_pos trivial]
      rfl
    · rw [lastOffsetAfter_cons]
    · rw [if_pos trivial]
      simp only [List.length_cons]
      omega
    · rw [if_pos trivial, Nat.add_zero]
    · simp [idsOf]

/-- Draining a healthy backlog: if what remains of a strictly ascending
buffer at the current fetch offset is `L`, no update of `L` is recorded yet,
every dispatch on `L` succeeds, and the fuel covers `L` batch-wise, then the
loop terminates having processed exactly `L`, in order. -/
theorem drainLoop_healthy (h : Handlers) (buffer : List Upd)
    (hpw : List.Pairwise (fun a b : Upd => a.update_id < b.update_id) buffer) :
    ∀ (fuel : Nat) (L : List Upd) (st : DrainState),
      offsetFilter buffer st.current_offset = L →
      (∀ u ∈ L, is_message_processed st.store u.update_id = false) →
      (∀ u ∈ L, dispatchOk h u = true) →
      L.length < fuel * batch_size →
      drainLoop h buffer fuel st = some
        { store := L.foldl markStep st.store
          current_offset := lastOffsetAfter L st.current_offset
          processed_count := st.processed_count + L.length
          failed_count := st.failed_count
          trace := st.trace ++ idsOf L } := by
  intro fuel
  induction fuel with
  | zero =>
    intro L st _ _ _ hlen
    rw [Nat.zero_mul] at hlen
    exact absurd hlen (Nat.not_lt_zero _)
  | succ fuel ih =>
    intro L st hL hfresh hok hlen
    have hbs : batch_size = 100 := rfl
    have hpwL : List.Pairwise (fun a b : Upd => a.update_id < b.update_id) L :=
      hL ▸ List.Pairwise.sublist (offsetFilter_sublist buffer st.current_offset) hpw
    cases L with
    | nil =>
      simp only [drainLoop, get_pending_updates_eq, hL, List.take_nil,
        List.isEmpty_nil, if_true]
      simp [lastOffsetAfter, idsOf]
    | cons u L' =>
      have hguard1 : ((u :: L').take batch_size).isEmpty = false := by
        rw [hbs, List.take_succ_cons, List.isEmpty_cons]
      have hpwb : List.Pairwise (fun a b : Upd => a.update_id ≠ b.update_id)
          ((u :: L').take batch_size) :=
        (List.Pairwise.sublist (List.take_sublist batch_size (u :: L')) hpwL).imp
          (fun hab => ne_of_lt hab)
      have hfreshb : ∀ v ∈ (u :: L').take batch_size,
          is_message_processed st.store v.update_id = false :=
        fun v hv => hfresh v (List.take_subset batch_size (u :: L') hv)
      have hokb : ∀ v ∈ (u :: L').take batch_size, dispatchOk h v = true :=
        fun v hv => hok v (List.take_subset batch_size (u :: L') hv)
      have hPB := processBatch_fresh h ((u :: L').take batch_size) st
        hfreshb hokb hpwb
      simp only [drainLoop, get_pending_updates_eq, hL, hguard1,
        Bool.false_eq_true, if_false, hPB]
      by_cases hshort : (u :: L').length < batch_size
      · rw [List.take_of_length_le (le_of_lt hshort)] at hPB ⊢
        rw [if_pos hshort]
      · have hfull : batch_size ≤ (u :: L').length := le_of_not_lt hshort
        rw [if_neg (by rw [List.length_take]; omega)]
        obtain ⟨b, hb⟩ : ∃ b, ((u :: L').take batch_size).getLast? = some b := by
          cases hgl : ((u :: L').take batch_size).getLast? with
          | none =>
            have := List.getLast?_eq_none_iff.mp hgl
            rw [hbs, List.take_succ_cons] at this
            exact absurd this (by simp)
          | some b => exact ⟨b, rfl⟩
        have hmid_cur : lastOffsetAfter ((u :: L').take batch_size)
            st.current_offset = some (b.update_id + 1) := by
          rw [lastOffsetAfter, hb]
        have hL2 : offsetFilter buffer (some (b.update_id + 1)) =
            (u :: L').drop batch_size :=
          offsetFilter_advance buffer hpw st.current_offset (u :: L') hL
            batch_size b hb
        have hnotmem : ∀ v ∈ (u :: L').drop batch_size,
            v.update_id ∉ idsOf ((u :: L').take batch_size) := by
          intro v hv hvin
          obtain ⟨a, ha, hav⟩ := List.mem_map.mp hvin
          have hpw3 : List.Pairwise (fun a b : Upd => a.update_id < b.update_id)
              ((u :: L').take batch_size ++ (u :: L').drop batch_size) := by
            rw [List.take_append_drop]; exact hpwL
          have := (List.pairwise_append.mp hpw3).2.2 a ha v hv
          omega
        have hfresh2 : ∀ v ∈ (u :: L').drop batch_size,
            is_message_processed
              (((u :: L').take batch_size).foldl markStep st.store)
              v.update_id = false := by
          intro v hv
          rw [foldl_markStep_processed_of_not_mem _ _ _ (hnotmem v hv)]
          exact hfresh v (List.drop_subset batch_size (u :: L') hv)
        have hok2 : ∀ v ∈ (u :: L').drop batch_size, dispatchOk h v = true :=
          fun v hv => hok v (List.drop_subset batch_size (u :: L') hv)
        have hlen2 : ((u :: L').drop batch_size).length < fuel * batch_size := by
          rw [List.length_drop]
          rw [hbs] at hlen hfull ⊢
          omega
        have hrec := ih ((u :: L').drop batch_size)
          { store := ((u :: L').take batch_size).foldl markStep st.store
            current_offset := lastOffsetAfter ((u :: L').take batch_size)
              st.current_offset
            processed_count := st.processed_count +
              ((u :: L').take batch_size).length
            failed_count := st.failed_count
            trace := st.trace ++ idsOf ((u :: L').take batch_size) }
          (by rw [hmid_cur]; exact hL2) hfresh2 hok2 hlen2
        rw [hrec]
        have hstore : ((u :: L').drop batch_size).foldl markStep
            (((u :: L').take batch_size).foldl markStep st.store) =
            (u :: L').foldl markStep st.store := by
          rw [← List.foldl_append, List.take_append_drop]
        have hcur : lastOffsetAfter ((u :: L').drop batch_size)
            (lastOffsetAfter ((u :: L').take batch_size) st.current_offset) =
            lastOffsetAfter (u :: L') st.current_offset := by
          rw [← lastOffsetAfter_append, List.take_append_drop]
        have hcount : st.processed_count + ((u :: L').take batch_size).length +
            ((u :: L').drop batch_size).length =
            st.processed_count + (u :: L').length := by
          rw [List.length_take, List.length_drop]
          omega
        have htrace : (st.trace ++ idsOf ((u :: L').take batch_size)) ++
            idsOf ((u :: L').drop batch_size) = st.trace ++ idsOf (u :: L') := by
          rw [List.append_assoc, idsOf, idsOf, idsOf, ← List.map_append,
            List.take_append_drop]
        simp only [hstore, hcur, hcount, htrace]

/-- C1 counterexample: replay is NOT idempotent in handler side-effects when
a dispatch fails.  Over the one-message backlog `poisonBuf` whose handler
always raises, the first drain invokes the handler on id 1 (trace `[1]`) and
records nothing durable; since the failed message was neither marked
processed nor covered by a watermark, the second drain fetches it again and
invokes the handler a second time (trace `[1]` again, failure counted again)
— it is not skipped by the `is_message_processed` check, and the side-effects
of two runs exceed those of one.  (Durable state is unchanged either way.) -/
theorem idempotent_replay_cex :
    poisonRun1.map (·.trace) = some [1] ∧
    poisonRun1.map (fun st => (st.processed_count, st.failed_count)) =
      some (0, 1) ∧
    poisonRun2.map (·.trace) = some [1] ∧
    poisonRun2.map (fun st => (st.processed_count, st.failed_count)) =
      some (0, 1) ∧
    poisonRun1.map (·.store) = poisonRun2.map (·.store) := by
  decide

/-- C1 (amended): idempotent replay holds for backlogs on which every
dispatch succeeds.  Over any strictly ascending backlog with healthy
handlers, starting from a fresh store, the first drain processes the whole
backlog with no failures, invoking each handler once in order; rerunning the
drain over the same backlog (any positive fuel) changes nothing: the durable
store is identical, zero messages are processed, there are no new handler
side-effects.  The second run is empty because it fetches from the advanced
durable watermark and receives no updates — not because of the
`is_message_processed` check, which is only consulted for re-fetched updates
(such as earlier failures). -/
theorem idempotent_replay_healthy (h : Handlers) (buffer : List Upd)
    (hpw : List.Pairwise (fun a b : Upd => a.update_id < b.update_id) buffer)
    (hok : ∀ u ∈ buffer, dispatchOk h u = true) :
    ∃ st1, process_backlog_messages h buffer (buffer.length + 1) initStore =
        some st1 ∧
      st1.processed_count = buffer.length ∧
      st1.failed_count = 0 ∧
      st1.trace = idsOf buffer ∧
      (∀ fuel2, 0 < fuel2 → ∃ st2,
        process_backlog_messages h buffer fuel2 st1.store = some st2 ∧
        st2.store = st1.store ∧ st2.processed_count = 0 ∧
        st2.failed_count = 0 ∧ st2.trace = []) := by
  have hbs : batch_size = 100 := rfl
  have hrun1 := drainLoop_healthy h buffer hpw (buffer.length + 1) buffer
    { store := initStore, current_offset := none, processed_count := 0
      failed_count := 0, trace := [] }
    rfl (fun u _ => rfl) hok (by rw [hbs]; omega)
  refine ⟨_, hrun1, Nat.zero_add _, rfl, List.nil_append _, ?_⟩
  intro fuel2 hf2
  have hids : ((buffer.foldl markStep initStore).message_offset).map
      (·.last_update_id) = idsOf buffer := by
    rw [foldl_markStep_message_offset]
    exact List.nil_append _
  cases hmax : (idsOf buffer).max? with
  | none =>
    have hbe : buffer = [] := by
      have h0 := List.max?_eq_none_iff.mp hmax
      exact List.map_eq_nil_iff.mp h0
    subst hbe
    cases fuel2 with
    | zero => exact absurd hf2 (by omega)
    | succ n => exact ⟨_, rfl, rfl, rfl, rfl, rfl⟩
  | some M =>
    have hglo : get_last_offset (buffer.foldl markStep initStore) = some M := by
      rw [get_last_offset, hids]
      exact hmax
    have hfil : offsetFilter buffer (some (M + 1)) = [] := by
      show buffer.filter (fun u => decide (M + 1 ≤ u.update_id)) = []
      rw [List.filter_eq_nil_iff]
      intro x hx
      have hxle : x.update_id ≤ M :=
        (int_max?_eq_some_iff.mp hmax).2 x.update_id (List.mem_map_of_mem _ hx)
      simp only [decide_eq_true_eq]
      omega
    have hrun2 := drainLoop_healthy h buffer hpw fuel2 []
      { store := buffer.foldl markStep initStore
        current_offset := some (M + 1), processed_count := 0
        failed_count := 0, trace := [] }
      hfil (fun u hu => absurd hu (List.not_mem_nil u))
      (fun u hu => absurd hu (List.not_mem_nil u))
      (by rw [hbs]; simp only [List.length_nil]; omega)
    have hstart2 : process_backlog_messages h buffer fuel2
        (buffer.foldl markStep initStore) =
        drainLoop h buffer fuel2
          { store := buffer.foldl markStep initStore
            current_offset := some (M + 1), processed_count := 0
            failed_count := 0, trace := [] } := by
      simp only [process_backlog_messages, hglo]
    exact ⟨_, hstart2.trans hrun2, rfl, rfl, rfl, rfl⟩

theorem idempotent_replay_healthy_witness :
    List.Pairwise (fun a b : Upd => a.update_id < b.update_id)
      [mkMsgUpd 1, mkMsgUpd 2] ∧
    (∀ u ∈ [mkMsgUpd 1, mkMsgUpd 2], dispatchOk allOkHandlers u = true) ∧
    (∃ st1, process_backlog_messages allOkHandlers [mkMsgUpd 1, mkMsgUpd 2]
        ([mkMsgUpd 1, mkMsgUpd 2].length + 1) initStore = some st1 ∧
      st1.processed_count = [mkMsgUpd 1, mkMsgUpd 2].length ∧
      st1.failed_count = 0 ∧
      st1.trace = idsOf [mkMsgUpd 1, mkMsgUpd 2] ∧
      (∀ fuel2, 0 < fuel2 → ∃ st2,
        process_backlog_messages allOkHandlers [mkMsgUpd 1, mkMsgUpd 2] fuel2
          st1.store = some st2 ∧
        st2.store = st1.store ∧ st2.processed_count = 0 ∧
        st2.failed_count = 0 ∧ st2.trace = [])) :=
  ⟨by decide, by decide,
    idempotent_replay_healthy allOkHandlers [mkMsgUpd 1, mkMsgUpd 2]
      (by decide) (by decide)⟩

/-- A key that is not in the table looks up to nothing. -/
theorem lookupGroup_eq_none_of_not_mem (l : List (String × MediaGroupData))
    (gid : String) (hgid : gid ∉ l.map Prod.fst) : lookupGroup l gid = none := by
  induction l with
  | nil => rfl
  | cons p rest ih =>
    simp only [List.map_cons, List.mem_cons, not_or] at hgid
    simp only [lookupGroup]
    rw [if_neg (fun hk => hgid.1 hk.symm)]
    exact ih hgid.2

/-- After popping a key from a table with unique keys, the key is gone. -/
theorem lookupGroup_popGroup (l : List (String × MediaGroupData)) (gid : String)
    (hnodup : (l.map Prod.fst).Nodup) : lookupGroup (popGroup l gid) gid = none := by
  induction l with
  | nil => rfl
  | cons p rest ih =>
    simp only [List.map_cons, List.nodup_cons] at hnodup
    simp only [popGroup]
    by_cases hk : p.1 = gid
    · rw [if_pos hk]
      exact lookupGroup_eq_none_of_not_mem rest gid (hk ▸ hnodup.1)
    · rw [if_neg hk]
      simp only [lookupGroup]
      rw [if_neg hk]
      exact ih hnodup.2

/-- C7: flush-once per group id.  A message without a media group id is not
handled: `add_message` returns `false` and leaves the collector untouched; a
message carrying a group id is handled (`add_message` returns `true`).  When
the flush timer fires for a live group, `_process_group` removes the buffer
from the live table and only then hands its messages to the callback (the
returned state already lacks the group, independent of what the callback
does, so a callback exception cannot resurrect the group or cause a retry);
firing again for the same id finds no group and invokes no callback, so the
callback runs at most once per collected buffer. -/
theorem flush_once_per_group (c : MediaGroupCollector) (m : Msg) (gid : String)
    (g : MediaGroupData) (hnodup : (c.groups.map Prod.fst).Nodup) :
    (m.media_group_id = none → c.add_message m = (c, false)) ∧
    (∀ gid2, m.media_group_id = some gid2 → (c.add_message m).2 = true) ∧
    (lookupGroup c.groups gid = some g →
      c.process_group gid = (⟨popGroup c.groups gid⟩, some g.messages) ∧
      lookupGroup (popGroup c.groups gid) gid = none ∧
      MediaGroupCollector.process_group ⟨popGroup c.groups gid⟩ gid =
        (⟨popGroup c.groups gid⟩, none)) := by
  refine ⟨fun hnone => ?_, fun gid2 hsome => ?_, fun hlook => ⟨?_, ?_, ?_⟩⟩
  · simp [MediaGroupCollector.add_message, hnone]
  · simp [MediaGroupCollector.add_message, hsome]
  · simp [MediaGroupCollector.process_group, hlook]
  · exact lookupGroup_popGroup c.groups gid hnodup
  · simp [MediaGroupCollector.process_group,
      lookupGroup_popGroup c.groups gid hnodup]

theorem flush_once_per_group_witness :
    ((([("g", (⟨[⟨1, some "g"⟩]⟩ : MediaGroupData))].map Prod.fst)).Nodup) ∧
    (((⟨2, some "g"⟩ : Msg).media_group_id = none →
      MediaGroupCollector.add_message ⟨[("g", ⟨[⟨1, some "g"⟩]⟩)]⟩ ⟨2, some "g"⟩ =
        (⟨[("g", ⟨[⟨1, some "g"⟩]⟩)]⟩, false)) ∧
    (∀ gid2, (⟨2, some "g"⟩ : Msg).media_group_id = some gid2 →
      (MediaGroupCollector.add_message ⟨[("g", ⟨[⟨1, some "g"⟩]⟩)]⟩
        ⟨2, some "g"⟩).2 = true) ∧
    (lookupGroup [("g", ⟨[⟨1, some "g"⟩]⟩)] "g" = some ⟨[⟨1, some "g"⟩]⟩ →
      MediaGroupCollector.process_group ⟨[("g", ⟨[⟨1, some "g"⟩]⟩)]⟩ "g" =
        (⟨popGroup [("g", ⟨[⟨1, some "g"⟩]⟩)] "g"⟩, some [⟨1, some "g"⟩]) ∧
      lookupGroup (popGroup [("g", ⟨[⟨1, some "g"⟩]⟩)] "g") "g" = none ∧
      MediaGroupCollector.process_group ⟨popGroup [("g", ⟨[⟨1, some "g"⟩]⟩)] "g"⟩
        "g" = (⟨popGroup [("g", ⟨[⟨1, some "g"⟩]⟩)] "g"⟩, none))) :=
  ⟨by decide,
    flush_once_per_group ⟨[("g", ⟨[⟨1, some "g"⟩]⟩)]⟩ ⟨2, some "g"⟩ "g"
      ⟨[⟨1, some "g"⟩]⟩ (by decide)⟩

/-- A media-group buffer is sorted by message id after every append. -/
theorem add_message_sorted (g : MediaGroupData) (m : Msg) :
    List.Sorted msgLe ((g.add_message m).messages) :=
  List.sorted_insertionSort msgLe (g.messages ++ [m])

/-- Appending to a buffer only reorders: the result is a permutation of the
old buffer plus the new message. -/
theorem add_message_perm (g : MediaGroupData) (m : Msg) :
    ((g.add_message m).messages).Perm (g.messages ++ [m]) :=
  List.perm_insertionSort msgLe (g.messages ++ [m])

/-- Folding `add_message` over a message list accumulates exactly those
messages (in some order). -/
theorem foldl_add_message_perm (ms : List Msg) : ∀ g : MediaGroupData,
    ((ms.foldl MediaGroupData.add_message g).messages).Perm (g.messages ++ ms) := by
  induction ms with
  | nil => intro g; simp
  | cons m ms ih =>
    intro g
    simp only [List.foldl_cons]
    refine (ih (g.add_message m)).trans ?_
    simpa using (add_message_perm g m).append_right ms

/-- A buffer that was sorted stays sorted under any sequence of appends. -/
theorem foldl_add_message_sorted (ms : List Msg) : ∀ g : MediaGroupData,
    List.Sorted msgLe g.messages →
    List.Sorted msgLe ((ms.foldl MediaGroupData.add_message g).messages) := by
  induction ms with
  | nil => intro g hg; exact hg
  | cons m ms ih => intro g _; exact ih (g.add_message m) (add_message_sorted g m)

/-- While every arriving message belongs to the one live group, the collector
table stays a singleton for that group id and the buffer accumulates through
`MediaGroupData.add_message`. -/
theorem collector_fold_single_gid (gid : String) (ms : List Msg) :
    ∀ g : MediaGroupData, (∀ m ∈ ms, m.media_group_id = some gid) →
    ms.foldl (fun (c : MediaGroupCollector) m => (c.add_message m).1)
        ⟨[(gid, g)]⟩ =
      (⟨[(gid, ms.foldl MediaGroupData.add_message g)]⟩ : MediaGroupCollector) := by
  induction ms with
  | nil => intro g _; rfl
  | cons m ms ih =>
    intro g hgid
    have hm : m.media_group_id = some gid := hgid m (List.mem_cons_self m ms)
    have hstep :
        (MediaGroupCollector.add_message ⟨[(gid, g)]⟩ m).1 =
          ⟨[(gid, g.add_message m)]⟩ := by
      simp [MediaGroupCollector.add_message, hm, lookupGroup, storeGroup]
    simp only [List.foldl_cons, hstep]
    exact ih (g.add_message m) (fun x hx => hgid x (List.mem_cons_of_mem m hx))

/-- C6: ordering within a media group.  The buffer is sorted by message id
after every single append, and for any nonempty set of messages sharing one
group id, delivered to the collector in any arrival order, the flush hands
the callback exactly those messages in ascending message-id order (a sorted
permutation of the arrivals), emptying the live table. -/
theorem media_group_ordering (gid : String) (ms : List Msg) (hne : ms ≠ [])
    (hgid : ∀ m ∈ ms, m.media_group_id = some gid) :
    (∀ (g : MediaGroupData) (m : Msg),
      List.Sorted msgLe ((g.add_message m).messages)) ∧
    ∃ delivered : List Msg,
      MediaGroupCollector.process_group
          (ms.foldl (fun (c : MediaGroupCollector) m => (c.add_message m).1) ⟨[]⟩)
          gid =
        (⟨[]⟩, some delivered) ∧
      List.Sorted msgLe delivered ∧ delivered.Perm ms := by
  refine ⟨add_message_sorted, ?_⟩
  cases ms with
  | nil => exact absurd rfl hne
  | cons m0 ms =>
    have hm0 : m0.media_group_id = some gid := hgid m0 (List.mem_cons_self m0 ms)
    have hstep :
        (MediaGroupCollector.add_message ⟨[]⟩ m0).1 =
          ⟨[(gid, MediaGroupData.add_message ⟨[]⟩ m0)]⟩ := by
      simp [MediaGroupCollector.add_message, hm0, lookupGroup, storeGroup]
    simp only [List.foldl_cons, hstep]
    rw [collector_fold_single_gid gid ms (MediaGroupData.add_message ⟨[]⟩ m0)
      (fun x hx => hgid x (List.mem_cons_of_mem m0 hx))]
    refine ⟨(ms.foldl MediaGroupData.add_message
      (MediaGroupData.add_message ⟨[]⟩ m0)).messages, ?_, ?_, ?_⟩
    · simp [MediaGroupCollector.process_group, lookupGroup, popGroup]
    · exact foldl_add_message_sorted ms _ (add_message_sorted ⟨[]⟩ m0)
    · refine (foldl_add_message_perm ms _).trans ?_
      simpa using (add_message_perm ⟨[]⟩ m0).append_right ms

theorem media_group_ordering_witness :
    (([⟨103, some "g"⟩, ⟨101, some "g"⟩, ⟨102, some "g"⟩] : List Msg) ≠ []) ∧
    (∀ m ∈ ([⟨103, some "g"⟩, ⟨101, some "g"⟩, ⟨102, some "g"⟩] : List Msg),
      m.media_group_id = some "g") ∧
    ((∀ (g : MediaGroupData) (m : Msg),
      List.Sorted msgLe ((g.add_message m).messages)) ∧
    ∃ delivered : List Msg,
      MediaGroupCollector.process_group
          (([⟨103, some "g"⟩, ⟨101, some "g"⟩, ⟨102, some "g"⟩] : List Msg).foldl
            (fun (c : MediaGroupCollector) m => (c.add_message m).1) ⟨[]⟩) "g" =
        (⟨[]⟩, some delivered) ∧
      List.Sorted msgLe delivered ∧
      delivered.Perm [⟨103, some "g"⟩, ⟨101, some "g"⟩, ⟨102, some "g"⟩]) ∧
    (MediaGroupCollector.process_group
        (([⟨103, some "g"⟩, ⟨101, some "g"⟩, ⟨102, some "g"⟩] : List Msg).foldl
          (fun (c : MediaGroupCollector) m => (c.add_message m).1) ⟨[]⟩) "g").2 =
      some [⟨101, some "g"⟩, ⟨102, some "g"⟩, ⟨103, some "g"⟩] :=
  ⟨by decide, by decide,
    media_group_ordering "g" [⟨103, some "g"⟩, ⟨101, some "g"⟩, ⟨102, some "g"⟩]
      (by decide) (by decide),
    by decide⟩

/-- The watermark rows accumulated by a sequence of `update_offset` calls are
the prior rows followed by the new values, in call order. -/
theorem foldl_update_offset_ids (vs : List Int) : ∀ s : Store,
    ((vs.foldl update_offset s).message_offset).map (·.last_update_id) =
      (s.message_offset.map (·.last_update_id)) ++ vs := by
  induction vs with
  | nil => intro s; simp
  | cons v vs ih =>
    intro s
    rw [List.foldl_cons, ih (update_offset s v)]
    simp [update_offset]

/-- C3: monotonic watermark.  After any finite sequence of `update_offset`
calls from any prior store state, `get_last_offset` returns the maximum over
all values ever recorded (the prior rows and every value passed); the result
is invariant under reordering the calls; and whenever the store already had a
watermark, the new watermark is at least as large — the observed watermark
never decreases. -/
theorem monotonic_watermark (s : Store) (vs : List Int) :
    get_last_offset (vs.foldl update_offset s) =
      ((s.message_offset.map (·.last_update_id)) ++ vs).max? ∧
    (∀ vs' : List Int, vs'.Perm vs →
      get_last_offset (vs'.foldl update_offset s) =
        get_last_offset (vs.foldl update_offset s)) ∧
    (∀ m, get_last_offset s = some m →
      ∃ m', get_last_offset (vs.foldl update_offset s) = some m' ∧ m ≤ m') := by
  have hids : get_last_offset (vs.foldl update_offset s) =
      ((s.message_offset.map (·.last_update_id)) ++ vs).max? := by
    rw [get_last_offset, foldl_update_offset_ids]
  refine ⟨hids, fun vs' hp => ?_, fun m hm => ?_⟩
  · have hids' : get_last_offset (vs'.foldl update_offset s) =
        ((s.message_offset.map (·.last_update_id)) ++ vs').max? := by
      rw [get_last_offset, foldl_update_offset_ids]
    rw [hids, hids']
    exact int_max?_perm (List.Perm.append_left _ hp)
  · rw [get_last_offset, int_max?_eq_some_iff] at hm
    cases h2 : ((s.message_offset.map (·.last_update_id)) ++ vs).max? with
    | none =>
      rw [List.max?_eq_none_iff, List.append_eq_nil] at h2
      exact absurd (h2.1 ▸ hm.1) (List.not_mem_nil m)
    | some m' =>
      have h3 := (int_max?_eq_some_iff.mp h2).2
      exact ⟨m', hids.trans h2,
        h3 m (List.mem_append_left vs hm.1)⟩

theorem monotonic_watermark_witness :
    get_last_offset ([3, 7].foldl update_offset (update_offset initStore 5)) =
      some 7 :=
  ((monotonic_watermark (update_offset initStore 5) [3, 7]).1).trans (by decide)

/-- C8 counterexample: `cleanup_old_records` is NOT always invisible to
`get_last_offset`.  In `staleMaxStore` the maximum watermark value 100 sits in
the oldest of 11 rows; the trim to the 10 most recent rows deletes it, and the
watermark drops from 100 to 10.  (This arises when `update_offset` was called
with non-ascending values; under the drain's ascending calls the maximum is
always in the newest row.) -/
theorem cleanup_semantics_cex :
    get_last_offset staleMaxStore = some 100 ∧
    get_last_offset (cleanup_old_records staleMaxStore 11 7) = some 10 ∧
    (cleanup_old_records staleMaxStore 11 7).message_offset.length = 10 := by
  decide

/-- C8 (amended): `cleanup_old_records` deletes exactly the processed-message
records older than the retention window (keeping the newer ones unchanged)
and keeps exactly the watermark rows having fewer than 10 strictly more
recent rows (the 10 most recent when row times are distinct; the keep count
10 is hardcoded in the source, and the retention parameter defaults to 7 days
at its call sites).  Provided some row achieving the current maximum is among
the kept rows — as always holds when `update_offset` calls were ascending —
`get_last_offset` is unaffected by the cleanup. -/
theorem cleanup_semantics (s : Store) (now days : Int)
    (hmax : ∃ r ∈ s.message_offset,
      get_last_offset s = some r.last_update_id ∧
      (s.message_offset.filter
        (fun r2 => decide (r.last_processed_time < r2.last_processed_time))).length < 10) :
    get_last_offset (cleanup_old_records s now days) = get_last_offset s ∧
    (cleanup_old_records s now days).processed_messages =
      s.processed_messages.filter (fun r => decide (now - days ≤ r.processed_time)) ∧
    (∀ r ∈ (cleanup_old_records s now days).message_offset,
      (s.message_offset.filter
        (fun r2 => decide (r.last_processed_time < r2.last_processed_time))).length < 10) ∧
    (∀ r ∈ s.message_offset,
      (s.message_offset.filter
        (fun r2 => decide (r.last_processed_time < r2.last_processed_time))).length < 10 →
      r ∈ (cleanup_old_records s now days).message_offset) := by
  obtain ⟨r, hrmem, hval, hkeep⟩ := hmax
  refine ⟨?_, rfl, fun r2 h2 => ?_, fun r2 h2 hk2 => ?_⟩
  · have hrk : r ∈ (cleanup_old_records s now days).message_offset :=
      List.mem_filter.mpr ⟨hrmem, by simpa using hkeep⟩
    have hsub :
        ((cleanup_old_records s now days).message_offset.map (·.last_update_id)).Sublist
          (s.message_offset.map (·.last_update_id)) :=
      List.Sublist.map _ (List.filter_sublist s.message_offset)
    have hbound := (int_max?_eq_some_iff.mp (hval ▸ rfl :
      (s.message_offset.map (·.last_update_id)).max? = some r.last_update_id)).2
    rw [hval]
    rw [show get_last_offset (cleanup_old_records s now days) =
        ((cleanup_old_records s now days).message_offset.map (·.last_update_id)).max?
      from rfl]
    rw [int_max?_eq_some_iff]
    exact ⟨List.mem_map_of_mem _ hrk,
      fun b hb => hbound b (hsub.subset hb)⟩
  · have := (List.mem_filter.mp h2).2
    simpa using this
  · exact List.mem_filter.mpr ⟨h2, by simpa using hk2⟩

theorem cleanup_semantics_witness :
    (∃ r ∈ ({ message_offset := [⟨5, 0⟩, ⟨7, 1⟩]
              processed_messages := [⟨1, none, none, "message", 0⟩]
              clock := 2 } : Store).message_offset,
      get_last_offset { message_offset := [⟨5, 0⟩, ⟨7, 1⟩]
                        processed_messages := [⟨1, none, none, "message", 0⟩]
                        clock := 2 } = some r.last_update_id ∧
      (({ message_offset := [⟨5, 0⟩, ⟨7, 1⟩]
          processed_messages := [⟨1, none, none, "message", 0⟩]
          clock := 2 } : Store).message_offset.filter
        (fun r2 => decide (r.last_processed_time < r2.last_processed_time))).length < 10) ∧
    get_last_offset (cleanup_old_records
      { message_offset := [⟨5, 0⟩, ⟨7, 1⟩]
        processed_messages := [⟨1, none, none, "message", 0⟩]
        clock := 2 } 10 7) =
      get_last_offset { message_offset := [⟨5, 0⟩, ⟨7, 1⟩]
                        processed_messages := [⟨1, none, none, "message", 0⟩]
                        clock := 2 } ∧
    (cleanup_old_records
      { message_offset := [⟨5, 0⟩, ⟨7, 1⟩]
        processed_messages := [⟨1, none, none, "message", 0⟩]
        clock := 2 } 10 7).processed_messages = [] :=
  ⟨by decide,
    (cleanup_semantics
      { message_offset := [⟨5, 0⟩, ⟨7, 1⟩]
        processed_messages := [⟨1, none, none, "message", 0⟩]
        clock := 2 } 10 7 (by decide)).1,
    by decide⟩
